import Mathlib

/-!
# Verification of the TFTP server core (mdlayher/tftp)

A shallow embedding of the repository's packet codec, netascii transcoder
and per-session transfer engine, together with theorems checking the
natural-language specification against the code.

Byte buffers are modelled as `List Nat` (one entry per byte); 16-bit
machine arithmetic is made explicit with `% 65536`.
-/

namespace TFTP

/-- blockSize is the RFC 1350 specified DATA packet size for a single read
or write (part_000). -/
def blockSize : Nat := 512

/-- Opcode constants taken from RFC 1350, Section 5 (tftp.go). -/
def OpcodeRead : Nat := 1

/-- Opcode constant for write requests (tftp.go). -/
def OpcodeWrite : Nat := 2

/-- Opcode constant for ERROR packets (tftp.go). -/
def OpcodeError : Nat := 5

/-- Internal opcode constant for DATA packets (tftp.go). -/
def opcodeDATA : Nat := 3

/-- Internal opcode constant for ACK packets (tftp.go). -/
def opcodeACK : Nat := 4

/-- The bytes of the mode string constant `ModeNetASCII = "netascii"` (tftp.go). -/
def ModeNetASCII : List Nat := [110, 101, 116, 97, 115, 99, 105, 105]

/-- The bytes of the mode string constant `ModeOctet = "octet"` (tftp.go). -/
def ModeOctet : List Nat := [111, 99, 116, 101, 116]

/-- binary.BigEndian.Uint16 applied to the two bytes of `b` starting at
offset `off` (the call sites guarantee the offsets are in range). -/
def be16 (b : List Nat) (off : Nat) : Nat :=
  256 * b.getD off 0 + b.getD (off + 1) 0

/-- bytes.IndexByte: index of the first occurrence of byte `c` in `l`,
`none` when absent (Go returns -1 in that case). -/
def indexByte (c : Nat) : List Nat → Option Nat
  | [] => none
  | x :: xs => if x = c then some 0 else (indexByte c xs).map (· + 1)

/-- ASCII-only byte lowercasing: on a buffer of ASCII bytes, Go's
strings.ToLower takes its fast path and lowercases byte by byte with this
map.  This is not a model of strings.ToLower on arbitrary bytes (Go's
Unicode-aware mapping also lowercases multi-byte runes, e.g. U+0130 to
the ASCII byte of i); it only instantiates the parser's abstract lowering
on concrete ASCII examples. -/
def asciiLowerByte (x : Nat) : Nat := if 65 ≤ x ∧ x ≤ 90 then x + 32 else x

/-- ASCII-only lowering of a byte string (see `asciiLowerByte`). -/
def asciiToLower (l : List Nat) : List Nat := l.map asciiLowerByte

/-- errInvalidRequestPacket is the only error value `parseRequestPacket`
produces (packet.go). -/
inductive ReqError where
  | invalidRequest
deriving DecidableEq, Repr

/-- requestPacket represents a raw request to a TFTP server (packet.go).
`filename` and `mode` hold the bytes of the corresponding Go strings. -/
structure requestPacket where
  opcode : Nat
  filename : List Nat
  mode : List Nat
deriving DecidableEq, Repr

/-- parseRequestPacket attempts to parse a TFTP read or write request as a
requestPacket (packet.go, lines 48-98).  The code lowercases the mode
token with strings.ToLower, a Go standard-library function outside this
repository whose Unicode-aware case mapping (it also lowercases
multi-byte runes such as U+0130 to the ASCII byte of i) cannot be
transcribed here; the lowering is therefore a parameter, and the theorems
below are proved for an arbitrary lowering, so they hold at Go's. -/
def parseRequestPacket (toLower : List Nat → List Nat) (b : List Nat) :
    Except ReqError requestPacket :=
  -- At a minimum, requests must contain a 2 byte opcode and 2 NULL bytes
  if b.length < 4 then .error .invalidRequest
  else
    let opcode := be16 b 0
    -- Only accept read and write requests to start transactions
    if opcode ≠ OpcodeRead ∧ opcode ≠ OpcodeWrite then .error .invalidRequest
    else
      -- Locate first NULL byte to determine filename offset
      match indexByte 0 (b.drop 2) with
      | none => .error .invalidRequest
      | some idx =>
        let filename := (b.drop 2).take idx
        -- Locate second NULL byte to determine mode offset
        let offset := idx + 3
        match indexByte 0 (b.drop offset) with
        | none => .error .invalidRequest
        | some idx2 =>
          let mode := toLower ((b.drop offset).take idx2)
          -- Only accept netascii or octet modes
          if mode ≠ ModeNetASCII ∧ mode ≠ ModeOctet then .error .invalidRequest
          -- Trailing NULL byte must be present to end packet
          else if b.getD (b.length - 1) 0 ≠ 0 then .error .invalidRequest
          else .ok ⟨opcode, filename, mode⟩

/-- ErrorPacket represents an ERROR packet, as defined in RFC 1350,
Section 5 (packet.go).  `errorMsg` holds the bytes of the Go string. -/
structure ErrorPacket where
  opcode : Nat
  errorCode : Nat
  errorMsg : List Nat
deriving DecidableEq, Repr

/-- The error values `parseACKPacket` can produce (packet.go):
errInvalidACKPacket, errInvalidERRORPacket, or a populated ErrorPacket
returned as the error value. -/
inductive AckError where
  | invalidACK
  | invalidERROR
  | errPacket (p : ErrorPacket)
deriving DecidableEq, Repr

/-- ackPacket represents an ACK packet, as defined in RFC 1350, Section 5
(packet.go). -/
structure ackPacket where
  opcode : Nat
  block : Nat
deriving DecidableEq, Repr

/-- parseACKPacket attempts to parse an ackPacket from a byte slice, but
may also return an ErrorPacket as the error value (packet.go,
lines 110-153). -/
def parseACKPacket (b : List Nat) : Except AckError ackPacket :=
  -- At a minimum, ACK packet must contain a 2 byte opcode and a 2 byte
  -- block number
  if b.length < 4 then .error .invalidACK
  else
    let opcode := be16 b 0
    let n := be16 b 2
    -- If length is exactly 4 and opcode is correct, return an ACK packet
    if b.length = 4 ∧ opcode = opcodeACK then .ok ⟨opcode, n⟩
    -- Verify packet is an ERROR packet
    else if opcode ≠ OpcodeError then .error .invalidERROR
    -- At a minimum, ERROR packet must contain opcode, error code, NULL
    else if b.length < 5 then .error .invalidERROR
    else
      let msg := (b.drop 4).dropLast
      -- Trailing NULL byte must be present to end packet
      if b.getD (b.length - 1) 0 ≠ 0 then .error .invalidERROR
      else .error (.errPacket ⟨opcode, n, msg⟩)

example : parseACKPacket [0, 4, 0, 1] = .ok ⟨4, 1⟩ := rfl

example : parseACKPacket [0, 5, 0, 3, 97, 98, 99, 0] =
    .error (.errPacket ⟨5, 3, [97, 98, 99]⟩) := rfl

example : parseACKPacket [0, 1, 0, 0] = .error .invalidERROR := rfl

example : parseACKPacket [0, 5, 0, 1] = .error .invalidERROR := rfl

example : parseRequestPacket asciiToLower [0, 1, 97, 0, 78, 101, 116, 65, 83, 67, 73, 73, 0] =
    .ok ⟨1, [97], ModeNetASCII⟩ := rfl

example : parseRequestPacket asciiToLower [0, 3, 97, 0, 111, 99, 116, 101, 116, 0] =
    .error .invalidRequest := rfl

/-- toNetASCII performs the necessary conversions to an input buffer needed
when a client is using netascii mode (part_001, lines 151-173): a CR is
emitted before every LF and a NUL after every CR of the input. -/
def toNetASCII : List Nat → List Nat
  | [] => []
  | b :: rest =>
    (if b = 10 then [13] else []) ++ b :: ((if b = 13 then [0] else []) ++ toNetASCII rest)

/-- fromNetASCII performs the necessary conversions from an input buffer
needed when a client is using netascii mode (part_001, lines 100-144).
The error component mirrors the Go signature; the only error the Go code
could propagate is a non-EOF buffer read error, which bytes.Buffer never
produces. -/
def fromNetASCII : List Nat → Except Unit (List Nat)
  | [] => .ok []
  -- a final byte, CR or not, is written as-is
  | [b] => .ok [b]
  | b :: bb :: rest =>
    if b ≠ 13 then (fromNetASCII (bb :: rest)).map (fun out => b :: out)
    else
      -- CR with lookahead: consume the next byte; LF gives LF, NUL gives
      -- CR, and the switch has no default for any other byte
      (fromNetASCII rest).map (fun out =>
        if bb = 10 then 10 :: out
        else if bb = 0 then 13 :: out
        else out)

example : toNetASCII [97, 13, 98, 10, 99] = [97, 13, 0, 98, 13, 10, 99] := rfl

example : fromNetASCII [97, 13, 0, 98, 13, 10, 99] = .ok [97, 13, 98, 10, 99] := rfl

example : fromNetASCII [97, 13] = .ok [97, 13] := rfl

example : fromNetASCII [13, 97] = .ok [] := rfl

/-- bytes.Replace with count -1: replaces every non-overlapping occurrence
of `pat` in `s` by `rep`, scanning left to right.  (Go handles an empty
pattern specially, by inserting `rep` between bytes; the source only ever
uses one-byte patterns, and this model leaves `s` unchanged for an empty
pattern.) -/
def replaceAll (s pat rep : List Nat) : List Nat :=
  match s with
  | [] => []
  | c :: s' =>
    if pat ≠ [] ∧ pat.isPrefixOf (c :: s') then
      rep ++ replaceAll ((c :: s').drop pat.length) pat rep
    else
      c :: replaceAll s' pat rep
termination_by s.length
decreasing_by
  · simp only [List.length_drop, List.length_cons]
    have : 1 ≤ pat.length := by
      rename_i h
      cases pat with
      | nil => exact absurd rfl h.1
      | cons x xs => simp
    omega
  · simp

/-- The netascii encoding used by netASCIIResponseWriter.Write
(netascii.go, lines 15-28): two sequential bytes.Replace passes over a
copy of the input, first CR to CR NUL, then LF to CR LF. -/
def netASCIIWriterEncode (p : List Nat) : List Nat :=
  replaceAll (replaceAll p [13] [13, 0]) [10] [13, 10]

example : netASCIIWriterEncode [97, 13, 98, 10, 99] = [97, 13, 0, 98, 13, 10, 99] := by
  simp [netASCIIWriterEncode, replaceAll, List.isPrefixOf]

example : netASCIIWriterEncode [97, 10, 98, 10, 99] = [97, 13, 10, 98, 13, 10, 99] := by
  simp [netASCIIWriterEncode, replaceAll, List.isPrefixOf]

/-- How one engine operation against the network ends: `done` is a nil
error, `failed e` is the Go error value `e`, and `blocked` models the code
still waiting in its read-retry loop when the supplied incoming datagrams
have run out. -/
inductive Outcome where
  | done
  | failed (e : AckError)
  | blocked
deriving DecidableEq, Repr

/-- The session state of the default ResponseWriter implementation
`response` (part_000, lines 21-38): the block accumulation buffer, the
current block number (a uint16, kept below 65536), and the netascii mode
flag.  The socket, addresses and scratch buffers are transport plumbing
and are not part of the state. -/
structure respState where
  buf : List Nat
  block : Nat
  netASCII : Bool
deriving DecidableEq, Repr

/-- newResponse (part_000, lines 42-72): fresh empty buffer, block counter
at its Go zero value, netascii flag from the requested mode. -/
def newResponse (mode : List Nat) : respState :=
  { buf := [], block := 0, netASCII := decide (mode = ModeNetASCII) }

/-- The DATA frame assembled in writeOneBlock's write buffer: big-endian
opcodeDATA, big-endian block number (a uint16 value), then the payload. -/
def dataFrame (block : Nat) (payload : List Nat) : List Nat :=
  [0, opcodeDATA, block / 256 % 256, block % 256] ++ payload

/-- The result of one engine network operation: the DATA frames written to
the socket in order, the incoming datagrams not yet consumed, how the
operation ended, and the session state afterwards. -/
structure BlockResult where
  sent : List (List Nat)
  rest : List (List Nat)
  out : Outcome
  st : respState
deriving DecidableEq, Repr

/-- The send/await loop of writeOneBlock (part_000, lines 140-205): each
iteration writes the framed packet and consumes the next incoming
datagram; a parse error aborts with that error, an ACK for the previous
block number (uint16 subtraction) loops to resend, and any other ACK
succeeds.  `ds` models the datagrams delivered by the socket, in order;
transport-level timeouts are invisible here because the code retries them
in place. -/
def wobLoop (frame : List Nat) (block : Nat) (st : respState) :
    List (List Nat) → BlockResult
  | [] => ⟨[frame], [], .blocked, st⟩
  | d :: rest =>
    match parseACKPacket d with
    | .error e => ⟨[frame], rest, .failed e, st⟩
    | .ok a =>
      -- If client reports the previous block as acknowledged again, we
      -- must repeat the process
      if a.block = (block + 65535) % 65536 then
        let r := wobLoop frame block st rest
        ⟨frame :: r.sent, r.rest, r.out, r.st⟩
      else ⟨[frame], rest, .done, st⟩

/-- writeOneBlock (part_000, lines 129-206): increment the block counter
(uint16 wrap-around), take up to one blockSize of bytes from the front of
the buffer, frame them as a DATA packet, then run the send/await loop. -/
def writeOneBlock (st : respState) (ds : List (List Nat)) : BlockResult :=
  let blk := (st.block + 1) % 65536
  let payload := st.buf.take blockSize
  let st' : respState := { st with block := blk, buf := st.buf.drop blockSize }
  wobLoop (dataFrame blk payload) blk st' ds

/-- The `for i := 0; i < available; i++` loop of response.Write (part_000,
lines 104-108): call writeOneBlock `available` times, stopping at the
first call that does not succeed. -/
def sendBlocks (st : respState) (ds : List (List Nat)) : Nat → BlockResult
  | 0 => ⟨[], ds, .done, st⟩
  | n + 1 =>
    let r := writeOneBlock st ds
    match r.out with
    | .done =>
      let r2 := sendBlocks r.st r.rest n
      ⟨r.sent ++ r2.sent, r2.rest, r2.out, r2.st⟩
    | o => ⟨r.sent, r.rest, o, r.st⟩

/-- The result of response.Write: the returned byte count plus the network
effect of the call. -/
structure WriteResult where
  n : Nat
  sent : List (List Nat)
  rest : List (List Nat)
  out : Outcome
  st : respState
deriving DecidableEq, Repr

/-- response.Write (part_000, lines 77-111): remember the original length,
transcode to netascii when the mode asks for it, append to the buffer;
below one full block just buffer, otherwise send as many full blocks as
the buffer holds.  `int(math.Floor(float64(l) / float64(blockSize)))` is
natural-number division for every buffer length a float64 represents
exactly. -/
def respWrite (st : respState) (p : List Nat) (ds : List (List Nat)) : WriteResult :=
  let pl := p.length
  let q := if st.netASCII then toNetASCII p else p
  let st1 : respState := { st with buf := st.buf ++ q }
  if st1.buf.length < blockSize then ⟨pl, [], ds, .done, st1⟩
  else
    let available := st1.buf.length / blockSize
    let r := sendBlocks st1 ds available
    ⟨pl, r.sent, r.rest, r.out, r.st⟩

/-- response.Flush (part_000, lines 121-123): exactly one writeOneBlock
call on the current buffer contents. -/
def respFlush (st : respState) (ds : List (List Nat)) : BlockResult :=
  writeOneBlock st ds

example :
    respFlush (newResponse ModeOctet) [[0, 4, 0, 1]] =
      ⟨[[0, 3, 0, 1]], [], .done, ⟨[], 1, false⟩⟩ := rfl

set_option maxRecDepth 8192 in
example :
    (respWrite ⟨[], 0, false⟩ (List.replicate 513 7) [[0, 4, 0, 1]]).sent =
      [dataFrame 1 (List.replicate 512 7)] := by rfl

/-! ## Helper lemmas about the netascii transcoder -/

/-- The per-byte rule implemented by `toNetASCII`. -/
lemma toNetASCII_eq_flatMap (p : List Nat) :
    toNetASCII p =
      p.flatMap (fun b => if b = 10 then [13, 10] else if b = 13 then [13, 0] else [b]) := by
  induction p with
  | nil => rfl
  | cons b rest ih =>
    rw [toNetASCII, ih, List.flatMap_cons]
    by_cases h10 : b = 10
    · subst h10; simp
    · by_cases h13 : b = 13
      · subst h13; simp
      · simp [h10, h13]

/-- Encoding never shrinks a buffer. -/
lemma toNetASCII_length (p : List Nat) : p.length ≤ (toNetASCII p).length := by
  induction p with
  | nil => simp
  | cons b rest ih =>
    rw [toNetASCII]
    simp only [List.length_append, List.length_cons]
    split <;> split <;> simp <;> omega

/-- Except.map on a success value, in reducible form for simp. -/
lemma except_map_ok {ε α β : Type} (f : α → β) (a : α) :
    (Except.ok a : Except ε α).map f = .ok (f a) := rfl

/-- A non-CR head byte is copied as-is, whatever follows it (for an empty
tail this agrees with the final-byte rule). -/
lemma fromNetASCII_cons_ne (b : Nat) (rest : List Nat) (h : b ≠ 13) :
    fromNetASCII (b :: rest) = (fromNetASCII rest).map (fun out => b :: out) := by
  cases rest with
  | nil => simp [fromNetASCII, except_map_ok]
  | cons bb t => simp [fromNetASCII, h]

/-- CR followed by LF decodes to a single LF. -/
lemma fromNetASCII_cr_lf (rest : List Nat) :
    fromNetASCII (13 :: 10 :: rest) = (fromNetASCII rest).map (fun out => 10 :: out) := by
  simp [fromNetASCII]

/-- CR followed by NUL decodes to a single CR. -/
lemma fromNetASCII_cr_nul (rest : List Nat) :
    fromNetASCII (13 :: 0 :: rest) = (fromNetASCII rest).map (fun out => 13 :: out) := by
  simp [fromNetASCII]

/-- CR followed by any byte other than LF or NUL: both bytes are consumed
and nothing is emitted. -/
lemma fromNetASCII_cr_other (bb : Nat) (rest : List Nat) (h10 : bb ≠ 10) (h0 : bb ≠ 0) :
    fromNetASCII (13 :: bb :: rest) = fromNetASCII rest := by
  simp only [fromNetASCII, ne_eq, not_true_eq_false, if_false, if_neg h10, if_neg h0]
  cases hr : fromNetASCII rest <;> rfl

/-- The decode scan never produces an error. -/
lemma fromNetASCII_total : ∀ p : List Nat, ∃ out, fromNetASCII p = .ok out := by
  have key : ∀ n (p : List Nat), p.length ≤ n → ∃ out, fromNetASCII p = .ok out := by
    intro n
    induction n with
    | zero =>
      intro p hp
      have : p = [] := List.length_eq_zero.mp (Nat.le_zero.mp hp)
      exact ⟨[], by simp [this, fromNetASCII]⟩
    | succ n ih =>
      intro p hp
      match p with
      | [] => exact ⟨[], rfl⟩
      | [b] => exact ⟨[b], rfl⟩
      | b :: bb :: rest =>
        by_cases h : b = 13
        · subst h
          obtain ⟨out, hout⟩ := ih rest (by simp only [List.length_cons] at hp ⊢; omega)
          exact ⟨if bb = 10 then 10 :: out else if bb = 0 then 13 :: out else out,
            by simp only [fromNetASCII, ne_eq, not_true_eq_false, if_false,
              hout, except_map_ok]⟩
        · obtain ⟨out, hout⟩ := ih (bb :: rest) (by simp only [List.length_cons] at hp ⊢; omega)
          exact ⟨b :: out, by rw [fromNetASCII_cons_ne _ _ h, hout]; rfl⟩
  exact fun p => key p.length p le_rfl

/-- C9: toNetASCII is a pure left-to-right scan that emits a CR before
every LF, a NUL after every original CR, and every other byte unchanged; a
CR synthesized by the LF rule is never given a synthesized NUL (the
per-byte image of LF is exactly CR LF), and the output is never shorter
than the input. -/
theorem toNetASCII_spec (p : List Nat) :
    toNetASCII p =
      p.flatMap (fun b => if b = 10 then [13, 10] else if b = 13 then [13, 0] else [b]) ∧
    p.length ≤ (toNetASCII p).length :=
  ⟨toNetASCII_eq_flatMap p, toNetASCII_length p⟩

/-- C4 counterexample: on CR followed by a byte that is neither LF nor
NUL, fromNetASCII does not fail as the claim requires; it succeeds, and it
silently drops both bytes. -/
theorem fromNetASCII_cr_other_succeeds :
    fromNetASCII [13, 97] = Except.ok ([] : List Nat) := rfl

/-- C4 amended: fromNetASCII is a left-to-right scan; a non-CR byte is
copied as-is; a CR that is the literal final byte is copied through; CR LF
emits a single LF; CR NUL emits a single CR; and a CR followed by any
other byte consumes both bytes and emits nothing — the function succeeds
on every input and never returns an error. -/
theorem fromNetASCII_scan_spec :
    fromNetASCII ([] : List Nat) = .ok [] ∧
    (∀ b : Nat, fromNetASCII [b] = .ok [b]) ∧
    (∀ (b bb : Nat) (rest : List Nat), b ≠ 13 →
      fromNetASCII (b :: bb :: rest) = (fromNetASCII (bb :: rest)).map (fun out => b :: out)) ∧
    (∀ rest : List Nat,
      fromNetASCII (13 :: 10 :: rest) = (fromNetASCII rest).map (fun out => 10 :: out)) ∧
    (∀ rest : List Nat,
      fromNetASCII (13 :: 0 :: rest) = (fromNetASCII rest).map (fun out => 13 :: out)) ∧
    (∀ (bb : Nat) (rest : List Nat), bb ≠ 10 → bb ≠ 0 →
      fromNetASCII (13 :: bb :: rest) = fromNetASCII rest) ∧
    (∀ p : List Nat, ∃ out, fromNetASCII p = .ok out) :=
  ⟨rfl, fun _ => rfl,
   fun b bb rest h => by simp [fromNetASCII, h],
   fromNetASCII_cr_lf, fromNetASCII_cr_nul, fromNetASCII_cr_other,
   fromNetASCII_total⟩

/-- Witness for the C4 amended theorem at concrete inputs. -/
theorem fromNetASCII_scan_spec_witness :
    fromNetASCII [97, 13, 10] = (fromNetASCII [13, 10]).map (fun out => 97 :: out) ∧
    fromNetASCII [13, 98, 99] = fromNetASCII [99] :=
  ⟨fromNetASCII_scan_spec.2.2.1 97 13 [10] (by decide),
   fromNetASCII_scan_spec.2.2.2.2.2.1 98 [99] (by decide) (by decide)⟩

/-- C5: decode of encode is the identity on buffers without NUL bytes. -/
theorem encode_decode_roundtrip (s : List Nat) (h : 0 ∉ s) :
    fromNetASCII (toNetASCII s) = .ok s := by
  induction s with
  | nil => rfl
  | cons b rest ih =>
    have h' : 0 ∉ rest := fun hh => h (List.mem_cons_of_mem _ hh)
    have ihr := ih h'
    by_cases h10 : b = 10
    · subst h10
      have he : toNetASCII (10 :: rest) = 13 :: 10 :: toNetASCII rest := by
        simp [toNetASCII]
      rw [he, fromNetASCII_cr_lf, ihr, except_map_ok]
    · by_cases h13 : b = 13
      · subst h13
        have he : toNetASCII (13 :: rest) = 13 :: 0 :: toNetASCII rest := by
          simp [toNetASCII]
        rw [he, fromNetASCII_cr_nul, ihr, except_map_ok]
      · have he : toNetASCII (b :: rest) = b :: toNetASCII rest := by
          simp [toNetASCII, h10, h13]
        rw [he, fromNetASCII_cons_ne _ _ h13, ihr, except_map_ok]

/-- Witness for C5 at a concrete NUL-free input. -/
theorem encode_decode_roundtrip_witness :
    (0 : Nat) ∉ ([97, 13, 10, 98] : List Nat) ∧
      fromNetASCII (toNetASCII [97, 13, 10, 98]) = .ok [97, 13, 10, 98] :=
  ⟨by decide, encode_decode_roundtrip [97, 13, 10, 98] (by decide)⟩

/-- bytes.Replace with a one-byte pattern maps each byte independently. -/
lemma replaceAll_singleton (s : List Nat) (a : Nat) (rep : List Nat) :
    replaceAll s [a] rep = s.flatMap (fun c => if c = a then rep else [c]) := by
  induction s with
  | nil => simp [replaceAll]
  | cons c s' ih =>
    rw [replaceAll]
    by_cases h : c = a
    · subst h
      simp [List.isPrefixOf, ih]
    · have : ¬ [a].isPrefixOf (c :: s') := by
        simp [List.isPrefixOf]
        omega
      simp [this, h, ih]

/-- C10: the two encode implementations agree byte-for-byte: the two
sequential bytes.Replace passes of netASCIIResponseWriter.Write compute
exactly the byte-at-a-time scan toNetASCII. -/
theorem netascii_encoders_agree (p : List Nat) :
    netASCIIWriterEncode p = toNetASCII p := by
  rw [netASCIIWriterEncode, replaceAll_singleton, replaceAll_singleton,
    toNetASCII_eq_flatMap, List.flatMap_assoc]
  have hfun :
      (fun c => (if c = 13 then [13, 0] else [c]).flatMap
          (fun d => if d = 10 then [13, 10] else [d])) =
      (fun b => if b = 10 then [13, 10] else if b = 13 then [13, 0] else [b]) := by
    funext c
    by_cases h13 : c = 13
    · subst h13; simp
    · by_cases h10 : c = 10
      · subst h10; simp
      · simp [h13, h10]
  rw [hfun]

/-- C2: the complete behavior of parseACKPacket, branch by branch: short
buffers are invalid ACKs; exactly-4-byte ACK opcode buffers succeed with
the big-endian block number; other opcodes are invalid ERROR packets;
ERROR opcodes need at least 5 bytes and a trailing NUL; and a well-formed
ERROR frame comes back as an ErrorPacket in the error position, carrying
the 16-bit code and the message bytes between code and terminator. -/
theorem parseACKPacket_spec (b : List Nat) :
    (b.length < 4 → parseACKPacket b = .error .invalidACK) ∧
    (b.length = 4 → be16 b 0 = opcodeACK →
      parseACKPacket b = .ok ⟨opcodeACK, be16 b 2⟩) ∧
    (4 ≤ b.length → ¬(b.length = 4 ∧ be16 b 0 = opcodeACK) → be16 b 0 ≠ OpcodeError →
      parseACKPacket b = .error .invalidERROR) ∧
    (4 ≤ b.length → be16 b 0 = OpcodeError →
      (b.length < 5 ∨ b.getD (b.length - 1) 0 ≠ 0) →
      parseACKPacket b = .error .invalidERROR) ∧
    (be16 b 0 = OpcodeError → 5 ≤ b.length → b.getD (b.length - 1) 0 = 0 →
      parseACKPacket b = .error (.errPacket ⟨OpcodeError, be16 b 2, (b.drop 4).dropLast⟩)) := by
  refine ⟨?_, ?_, ?_, ?_, ?_⟩
  · intro h
    simp [parseACKPacket, h]
  · intro h4 hop
    have : ¬ b.length < 4 := by omega
    simp [parseACKPacket, this, h4, hop]
  · intro h4 hno hne
    have : ¬ b.length < 4 := by omega
    simp only [parseACKPacket, if_neg this, if_neg hno]
    rw [if_pos hne]
  · intro h4 hop hbad
    have hlt : ¬ b.length < 4 := by omega
    have hno : ¬ (b.length = 4 ∧ be16 b 0 = opcodeACK) := by
      rintro ⟨-, h⟩
      rw [hop] at h
      simp [OpcodeError, opcodeACK] at h
    simp only [parseACKPacket, if_neg hlt, if_neg hno]
    rw [if_neg (by simp [hop])]
    by_cases h5 : b.length < 5
    · rw [if_pos h5]
    · have hnul : b.getD (b.length - 1) 0 ≠ 0 := by
        rcases hbad with h | h
        · exact absurd h h5
        · exact h
      rw [if_neg h5, if_pos hnul]
  · intro hop h5 hnul
    have hlt : ¬ b.length < 4 := by omega
    have hno : ¬ (b.length = 4 ∧ be16 b 0 = opcodeACK) := by
      rintro ⟨-, h⟩
      rw [hop] at h
      simp [OpcodeError, opcodeACK] at h
    have h5' : ¬ b.length < 5 := by omega
    simp only [parseACKPacket, if_neg hlt, if_neg hno]
    rw [if_neg (by simp [hop]), if_neg h5', if_neg (fun hc => hc hnul), hop]

/-- Witness for C2 on the spec's own example frames. -/
theorem parseACKPacket_spec_witness :
    parseACKPacket [0, 4, 0, 1] = .ok ⟨opcodeACK, 1⟩ ∧
    parseACKPacket [0, 5, 0, 3, 97, 98, 99, 0] =
      .error (.errPacket ⟨OpcodeError, 3, [97, 98, 99]⟩) ∧
    parseACKPacket [0, 1, 0, 0] = .error .invalidERROR ∧
    parseACKPacket [0, 5, 0, 1] = .error .invalidERROR :=
  ⟨(parseACKPacket_spec [0, 4, 0, 1]).2.1 (by decide) (by decide),
   (parseACKPacket_spec [0, 5, 0, 3, 97, 98, 99, 0]).2.2.2.2 (by decide) (by decide) (by decide),
   (parseACKPacket_spec [0, 1, 0, 0]).2.2.1 (by decide) (by decide) (by decide),
   (parseACKPacket_spec [0, 5, 0, 1]).2.2.2.1 (by decide) (by decide) (Or.inl (by decide))⟩

/-- C3: the post-parse decision of the send-one-block wait loop.  A
genuine ACK whose block number is the previous one (uint16 subtraction,
here `(blk - 1) mod 65536`) resends the same framed DATA packet and keeps
waiting without advancing the session state; any other block number makes
the step succeed; a parse outcome in the error position — an ErrorPacket
or a decode error — ends the step with that error, with no further sends.
The final conjunct ties the loop to writeOneBlock: the frame it resends is
the DATA packet framed once from the incremented block number and the
front of the buffer. -/
theorem wobLoop_ack_decision (frame : List Nat) (blk : Nat) (st : respState)
    (d : List Nat) (rest : List (List Nat)) :
    (∀ a, parseACKPacket d = .ok a →
      (a.block = (blk + 65535) % 65536 →
        wobLoop frame blk st (d :: rest) =
          ⟨frame :: (wobLoop frame blk st rest).sent, (wobLoop frame blk st rest).rest,
            (wobLoop frame blk st rest).out, (wobLoop frame blk st rest).st⟩) ∧
      (a.block ≠ (blk + 65535) % 65536 →
        wobLoop frame blk st (d :: rest) = ⟨[frame], rest, .done, st⟩)) ∧
    (∀ e, parseACKPacket d = .error e →
      wobLoop frame blk st (d :: rest) = ⟨[frame], rest, .failed e, st⟩) ∧
    (∀ ds, writeOneBlock st ds =
      wobLoop (dataFrame ((st.block + 1) % 65536) (st.buf.take blockSize))
        ((st.block + 1) % 65536)
        { st with block := (st.block + 1) % 65536, buf := st.buf.drop blockSize } ds) := by
  refine ⟨fun a ha => ⟨fun hdup => ?_, fun hok => ?_⟩, fun e he => ?_, fun ds => rfl⟩
  · simp [wobLoop, ha, hdup]
  · simp [wobLoop, ha, hok]
  · simp [wobLoop, he]

/-- Witness for C3: a duplicate ACK for block 0 while block 1 is pending
makes the loop resend; the following ACK for block 1 ends the step. -/
theorem wobLoop_ack_decision_witness :
    wobLoop [0, 3, 0, 1, 97] 1 ⟨[], 1, false⟩ [[0, 4, 0, 0], [0, 4, 0, 1]] =
      ⟨[[0, 3, 0, 1, 97], [0, 3, 0, 1, 97]], [], .done, ⟨[], 1, false⟩⟩ := by
  have h :=
    ((wobLoop_ack_decision [0, 3, 0, 1, 97] 1 ⟨[], 1, false⟩ [0, 4, 0, 0]
      [[0, 4, 0, 1]]).1 ⟨4, 0⟩ rfl).1 (by decide)
  rw [h]
  rfl

/-- Every frame the wait loop writes is the one frame it was given. -/
lemma wobLoop_sent_eq (frame : List Nat) (blk : Nat) (st : respState) :
    ∀ ds g, g ∈ (wobLoop frame blk st ds).sent → g = frame := by
  intro ds
  induction ds with
  | nil =>
    intro g hg
    simp [wobLoop] at hg
    exact hg
  | cons d rest ih =>
    intro g hg
    rcases hp : parseACKPacket d with e | a
    · simp [wobLoop, hp] at hg
      exact hg
    · by_cases hdup : a.block = (blk + 65535) % 65536
      · simp only [wobLoop, hp, if_pos hdup, List.mem_cons] at hg
        rcases hg with h | h
        · exact h
        · exact ih g h
      · simp [wobLoop, hp, hdup] at hg
        exact hg

/-- The wait loop always writes at least one frame. -/
lemma wobLoop_sent_ne_nil (frame : List Nat) (blk : Nat) (st : respState) :
    ∀ ds, (wobLoop frame blk st ds).sent ≠ [] := by
  intro ds
  cases ds with
  | nil => simp [wobLoop]
  | cons d rest =>
    rcases hp : parseACKPacket d with e | a
    · simp [wobLoop, hp]
    · by_cases hdup : a.block = (blk + 65535) % 65536
      · simp [wobLoop, hp, hdup]
      · simp [wobLoop, hp, hdup]

/-- The wait loop never touches the session state it was given. -/
lemma wobLoop_st (frame : List Nat) (blk : Nat) (st : respState) :
    ∀ ds, (wobLoop frame blk st ds).st = st := by
  intro ds
  induction ds with
  | nil => simp [wobLoop]
  | cons d rest ih =>
    rcases hp : parseACKPacket d with e | a
    · simp [wobLoop, hp]
    · by_cases hdup : a.block = (blk + 65535) % 65536
      · simpa [wobLoop, hp, hdup] using ih
      · simp [wobLoop, hp, hdup]

/-- C7: Flush is exactly one send-one-block call: it always sends, every
datagram written is the single DATA frame built from the incremented block
number and the first blockSize bytes of the buffer (so only one block, of
at most blockSize payload bytes, possibly empty), those bytes leave the
buffer, and an empty buffer still produces a bare 4-byte header frame. -/
theorem respFlush_spec (st : respState) (ds : List (List Nat)) :
    respFlush st ds = writeOneBlock st ds ∧
    (writeOneBlock st ds).sent ≠ [] ∧
    (∀ f ∈ (writeOneBlock st ds).sent,
      f = dataFrame ((st.block + 1) % 65536) (st.buf.take blockSize)) ∧
    (writeOneBlock st ds).st.buf = st.buf.drop blockSize ∧
    (st.buf.take blockSize).length ≤ blockSize ∧
    (st.buf = [] → ∀ f ∈ (writeOneBlock st ds).sent, f.length = 4) := by
  refine ⟨rfl, wobLoop_sent_ne_nil _ _ _ ds, fun f hf => wobLoop_sent_eq _ _ _ ds f hf,
    ?_, ?_, fun hemp f hf => ?_⟩
  · rw [writeOneBlock, wobLoop_st]
  · simp
  · have := wobLoop_sent_eq _ _ _ ds f hf
    subst this
    simp [hemp, dataFrame]

/-- Witness for C7 with an empty buffer: the terminal block is the bare
header for block 1. -/
theorem respFlush_spec_witness :
    [0, 3, 0, 1] = dataFrame ((0 + 1) % 65536) (([] : List Nat).take blockSize) :=
  (respFlush_spec ⟨[], 0, false⟩ [[0, 4, 0, 1]]).2.2.1 [0, 3, 0, 1] (by decide)

/-! ## Helper lemmas about bytes.IndexByte -/

/-- indexByte finds nothing exactly when the byte is absent. -/
lemma indexByte_eq_none_iff (c : Nat) (l : List Nat) :
    indexByte c l = none ↔ c ∉ l := by
  induction l with
  | nil => simp [indexByte]
  | cons x xs ih =>
    by_cases h : x = c
    · simp [indexByte, h]
    · rw [indexByte, if_neg h]
      constructor
      · intro hm
        have hn : indexByte c xs = none := by
          cases hr : indexByte c xs
          · rfl
          · rw [hr] at hm
            simp at hm
        intro hmem
        rcases List.mem_cons.mp hmem with hc | hc
        · exact h hc.symm
        · exact (ih.mp hn) hc
      · intro hmem
        have hnx : c ∉ xs := fun hc => hmem (List.mem_cons_of_mem _ hc)
        rw [ih.mpr hnx]
        rfl

/-- indexByte returns the position of the first occurrence. -/
lemma indexByte_eq_some_iff (c : Nat) :
    ∀ (l : List Nat) (i : Nat),
      indexByte c l = some i ↔ l[i]? = some c ∧ ∀ k, k < i → l[k]? ≠ some c := by
  intro l
  induction l with
  | nil => intro i; simp [indexByte]
  | cons x xs ih =>
    intro i
    by_cases h : x = c
    · subst h
      simp only [indexByte, if_pos rfl]
      constructor
      · intro h0
        have : i = 0 := by
          cases h0
          rfl
        subst this
        exact ⟨by simp, fun k hk => absurd hk (Nat.not_lt_zero k)⟩
      · rintro ⟨hi, hall⟩
        rcases i with _ | j
        · rfl
        · exact absurd (by simp) (hall 0 (Nat.succ_pos j))
    · simp only [indexByte, if_neg h]
      rcases i with _ | j
      · constructor
        · intro hmap
          rcases hr : indexByte c xs with _ | v <;> rw [hr] at hmap <;> simp at hmap
        · rintro ⟨h0, -⟩
          rw [List.getElem?_cons_zero] at h0
          exact absurd (Option.some.inj h0) h
      · constructor
        · intro hmap
          have hr : indexByte c xs = some j := by
            rcases hx : indexByte c xs with _ | v
            · rw [hx] at hmap
              simp at hmap
            · rw [hx] at hmap
              simp only [Option.map_some'] at hmap
              have hv : v = j := by
                have := Option.some.inj hmap
                omega
              rw [hv]
          obtain ⟨h1, h2⟩ := (ih j).mp hr
          refine ⟨by simpa using h1, ?_⟩
          intro k hk
          rcases k with _ | k'
          · rw [List.getElem?_cons_zero]
            exact fun hc => h (Option.some.inj hc)
          · rw [List.getElem?_cons_succ]
            exact h2 k' (by omega)
        · rintro ⟨h1, h2⟩
          have hj : indexByte c xs = some j :=
            (ih j).mpr ⟨by simpa using h1, fun k hk => by
              have := h2 (k + 1) (by omega)
              simpa using this⟩
          rw [hj]
          rfl

/-- C1: parseRequestPacket succeeds exactly when the buffer is at least 4
bytes, its big-endian opcode is Read or Write, a first NUL exists at some
position i ≥ 2 (ending the possibly empty filename), a second NUL exists
at some later position j, the token strictly between the two NULs is,
lowercased, exactly "netascii" or "octet", and the final byte of the
buffer is NUL; every violation produces the one undifferentiated
invalid-request error and never a packet.  "Lowercased" on both sides of
the equivalence is the same strings.ToLower the code applies; since that
Go-library function is abstracted as a parameter, the theorem quantifies
over every lowering and in particular holds at Go's Unicode-aware one. -/
theorem parseRequestPacket_ok_iff (toLower : List Nat → List Nat) (b : List Nat) :
    ((∃ pkt, parseRequestPacket toLower b = .ok pkt) ↔
      (4 ≤ b.length ∧
       (be16 b 0 = OpcodeRead ∨ be16 b 0 = OpcodeWrite) ∧
       (∃ i j, 2 ≤ i ∧ i < j ∧ j < b.length ∧
         b[i]? = some 0 ∧ b[j]? = some 0 ∧
         (∀ k, 2 ≤ k → k < i → b[k]? ≠ some 0) ∧
         (∀ k, i < k → k < j → b[k]? ≠ some 0) ∧
         (toLower ((b.drop (i + 1)).take (j - (i + 1))) = ModeNetASCII ∨
          toLower ((b.drop (i + 1)).take (j - (i + 1))) = ModeOctet)) ∧
       b[b.length - 1]? = some 0)) ∧
    (parseRequestPacket toLower b = .error .invalidRequest ∨
      ∃ pkt, parseRequestPacket toLower b = .ok pkt) := by
  constructor
  · constructor
    · rintro ⟨pkt, hpkt⟩
      rw [parseRequestPacket] at hpkt
      by_cases h4 : b.length < 4
      · rw [if_pos h4] at hpkt
        exact absurd hpkt (by simp)
      rw [if_neg h4] at hpkt
      push_neg at h4
      by_cases hop : be16 b 0 ≠ OpcodeRead ∧ be16 b 0 ≠ OpcodeWrite
      · rw [if_pos hop] at hpkt
        exact absurd hpkt (by simp)
      rw [if_neg hop] at hpkt
      push_neg at hop
      rcases hidx : indexByte 0 (b.drop 2) with _ | idx
      · simp only [hidx] at hpkt
        exact absurd hpkt (by simp)
      simp only [hidx] at hpkt
      rcases hidx2 : indexByte 0 (b.drop (idx + 3)) with _ | idx2
      · simp only [hidx2] at hpkt
        exact absurd hpkt (by simp)
      simp only [hidx2] at hpkt
      by_cases hmode : toLower ((b.drop (idx + 3)).take idx2) ≠ ModeNetASCII ∧
          toLower ((b.drop (idx + 3)).take idx2) ≠ ModeOctet
      · rw [if_pos hmode] at hpkt
        exact absurd hpkt (by simp)
      rw [if_neg hmode] at hpkt
      push_neg at hmode
      by_cases hlast : b.getD (b.length - 1) 0 ≠ 0
      · rw [if_pos hlast] at hpkt
        exact absurd hpkt (by simp)
      push_neg at hlast
      -- assemble the characterization from the two searches
      obtain ⟨hd1, hd2⟩ := (indexByte_eq_some_iff 0 (b.drop 2) idx).mp hidx
      obtain ⟨he1, he2⟩ := (indexByte_eq_some_iff 0 (b.drop (idx + 3)) idx2).mp hidx2
      rw [List.getElem?_drop] at hd1
      rw [List.getElem?_drop] at he1
      rw [Nat.add_comm 2 idx] at hd1
      have hjlen : idx + 3 + idx2 < b.length := by
        by_contra hc
        push_neg at hc
        rw [List.getElem?_eq_none hc] at he1
        cases he1
      refine ⟨h4, by tauto, ⟨idx + 2, idx + 3 + idx2, by omega, by omega, hjlen,
        hd1, he1, ?_, ?_, ?_⟩, ?_⟩
      · intro k hk2 hki
        have hk := hd2 (k - 2) (by omega)
        rw [List.getElem?_drop] at hk
        have : 2 + (k - 2) = k := by omega
        rw [this] at hk
        exact hk
      · intro k hki hkj
        have hk := he2 (k - (idx + 3)) (by omega)
        rw [List.getElem?_drop] at hk
        have : idx + 3 + (k - (idx + 3)) = k := by omega
        rw [this] at hk
        exact hk
      · have h1 : idx + 2 + 1 = idx + 3 := by omega
        have h2 : idx + 3 + idx2 - (idx + 2 + 1) = idx2 := by omega
        rw [h1, h2]
        tauto
      · have hlt : b.length - 1 < b.length := by omega
        rw [List.getD_eq_getElem?_getD, List.getElem?_eq_getElem hlt] at hlast
        rw [List.getElem?_eq_getElem hlt]
        simp only [Option.getD_some] at hlast
        rw [hlast]
    · rintro ⟨h4, hop, ⟨i, j, h2i, hij, hjlen, hbi, hbj, hfirst, hsecond, hmode⟩, hlast⟩
      have hidx : indexByte 0 (b.drop 2) = some (i - 2) := by
        refine (indexByte_eq_some_iff 0 (b.drop 2) (i - 2)).mpr ⟨?_, ?_⟩
        · rw [List.getElem?_drop]
          have : 2 + (i - 2) = i := by omega
          rw [this]
          exact hbi
        · intro k hk
          rw [List.getElem?_drop]
          exact hfirst (2 + k) (by omega) (by omega)
      have hidx2 : indexByte 0 (b.drop (i - 2 + 3)) = some (j - (i + 1)) := by
        have h13 : i - 2 + 3 = i + 1 := by omega
        rw [h13]
        refine (indexByte_eq_some_iff 0 (b.drop (i + 1)) (j - (i + 1))).mpr ⟨?_, ?_⟩
        · rw [List.getElem?_drop]
          have : i + 1 + (j - (i + 1)) = j := by omega
          rw [this]
          exact hbj
        · intro k hk
          rw [List.getElem?_drop]
          exact hsecond (i + 1 + k) (by omega) (by omega)
      rw [parseRequestPacket]
      rw [if_neg (by omega), if_neg (by tauto)]
      simp only [hidx]
      simp only [hidx2]
      have hmode2 : ¬(toLower ((b.drop (i - 2 + 3)).take (j - (i + 1))) ≠ ModeNetASCII ∧
          toLower ((b.drop (i - 2 + 3)).take (j - (i + 1))) ≠ ModeOctet) := by
        have h13 : i - 2 + 3 = i + 1 := by omega
        rw [h13]
        tauto
      rw [if_neg hmode2]
      have hlast2 : ¬ b.getD (b.length - 1) 0 ≠ 0 := by
        rw [List.getD_eq_getElem?_getD, hlast]
        simp
      rw [if_neg hlast2]
      exact ⟨_, rfl⟩
  · rcases hp : parseRequestPacket toLower b with e | pkt
    · cases e
      exact Or.inl rfl
    · exact Or.inr ⟨pkt, rfl⟩

/-! ## Helper lemmas for the block-sending loop of response.Write -/

/-- The wait loop transcript is some positive number of copies of its one
frame (the initial send plus one resend per duplicate ACK). -/
lemma wobLoop_sent_replicate (frame : List Nat) (blk : Nat) (st : respState) :
    ∀ ds, ∃ m, 1 ≤ m ∧ (wobLoop frame blk st ds).sent = List.replicate m frame := by
  intro ds
  induction ds with
  | nil => exact ⟨1, le_rfl, by simp [wobLoop]⟩
  | cons d rest ih =>
    rcases hp : parseACKPacket d with e | a
    · exact ⟨1, le_rfl, by simp [wobLoop, hp]⟩
    · by_cases hdup : a.block = (blk + 65535) % 65536
      · obtain ⟨m, hm, hsent⟩ := ih
        exact ⟨m + 1, by omega,
          by simp [wobLoop, hp, hdup, hsent, List.replicate_succ]⟩
      · exact ⟨1, le_rfl, by simp [wobLoop, hp, hdup]⟩

/-- writeOneBlock advances the session state deterministically: one block
counter increment (uint16 wrap) and one blockSize bite out of the buffer. -/
lemma writeOneBlock_st (st : respState) (ds : List (List Nat)) :
    (writeOneBlock st ds).st =
      { st with block := (st.block + 1) % 65536, buf := st.buf.drop blockSize } := by
  rw [writeOneBlock, wobLoop_st]

/-- The block counter after writeOneBlock. -/
lemma writeOneBlock_st_block (st : respState) (ds : List (List Nat)) :
    (writeOneBlock st ds).st.block = (st.block + 1) % 65536 := by
  rw [writeOneBlock_st]

/-- The buffer after writeOneBlock. -/
lemma writeOneBlock_st_buf (st : respState) (ds : List (List Nat)) :
    (writeOneBlock st ds).st.buf = st.buf.drop blockSize := by
  rw [writeOneBlock_st]

/-- The netascii flag is untouched by writeOneBlock. -/
lemma writeOneBlock_st_netASCII (st : respState) (ds : List (List Nat)) :
    (writeOneBlock st ds).st.netASCII = st.netASCII := by
  rw [writeOneBlock_st]

/-- writeOneBlock transcript: positively many copies of its one frame. -/
lemma writeOneBlock_sent_replicate (st : respState) (ds : List (List Nat)) :
    ∃ m, 1 ≤ m ∧ (writeOneBlock st ds).sent =
      List.replicate m (dataFrame ((st.block + 1) % 65536) (st.buf.take blockSize)) := by
  rw [writeOneBlock]
  exact wobLoop_sent_replicate _ _ _ ds

/-- Skipping adjacent duplicates ignores a run of the current frame. -/
lemma destutter_skip_replicate (f : List Nat) :
    ∀ (m : Nat) (l : List (List Nat)),
      List.destutter' (· ≠ ·) f (List.replicate m f ++ l) =
        List.destutter' (· ≠ ·) f l := by
  intro m
  induction m with
  | zero => intro l; simp
  | succ m ih =>
    intro l
    rw [List.replicate_succ, List.cons_append,
      List.destutter'_cons_neg _ (by simp : ¬ f ≠ f)]
    exact ih l

/-- When the next element differs from the running one, destutter' keeps
both runs apart. -/
lemma destutter_cons_of_head_ne (f : List Nat) (l : List (List Nat))
    (h : ∀ g, l.head? = some g → g ≠ f) :
    List.destutter' (· ≠ ·) f l = f :: List.destutter (· ≠ ·) l := by
  cases l with
  | nil => simp
  | cons g l' =>
    rw [List.destutter'_cons_pos _ (Ne.symm (h g rfl)), List.destutter_cons']

/-- Two DATA frames with different 16-bit block numbers differ as byte
strings, whatever their payloads. -/
lemma dataFrame_ne_of_block_ne {b1 b2 : Nat} (p1 p2 : List Nat)
    (h1 : b1 < 65536) (h2 : b2 < 65536) (hne : b1 ≠ b2) :
    dataFrame b1 p1 ≠ dataFrame b2 p2 := by
  intro h
  simp only [dataFrame, List.cons_append, List.nil_append, List.cons.injEq] at h
  omega

/-- destutter' always keeps its running element at the front. -/
lemma destutter_keeps_head :
    ∀ (l : List (List Nat)) (a : List Nat),
      ∃ t, List.destutter' (· ≠ ·) a l = a :: t := by
  intro l
  induction l with
  | nil => exact fun a => ⟨[], rfl⟩
  | cons b l' ih =>
    intro a
    by_cases hb : a ≠ b
    · exact ⟨_, List.destutter'_cons_pos _ hb⟩
    · rw [List.destutter'_cons_neg _ hb]
      exact ih a

/-- The accumulated effect of the Write loop: calling writeOneBlock `n`
times in a row attempts some k ≤ n blocks (k = n whenever every call
succeeds), sending the k consecutive blockSize chunks of the buffer as
DATA frames with consecutively incremented block numbers (adjacent
duplicates in the transcript are retransmissions of one block), and leaves
the session advanced by exactly those k blocks. -/
lemma sendBlocks_spec :
    ∀ (n : Nat) (st : respState) (ds : List (List Nat)), st.block < 65536 →
    ∃ k, k ≤ n ∧
      ((sendBlocks st ds n).out = .done → k = n) ∧
      (sendBlocks st ds n).sent.destutter (· ≠ ·) =
        (List.range k).map (fun t =>
          dataFrame ((st.block + t + 1) % 65536)
            ((st.buf.drop (blockSize * t)).take blockSize)) ∧
      (sendBlocks st ds n).st.block = (st.block + k) % 65536 ∧
      (sendBlocks st ds n).st.buf = st.buf.drop (blockSize * k) ∧
      (sendBlocks st ds n).st.netASCII = st.netASCII := by
  intro n
  induction n with
  | zero =>
    intro st ds hblk
    refine ⟨0, le_rfl, fun _ => rfl, by simp [sendBlocks], ?_, by simp [sendBlocks], rfl⟩
    simp [sendBlocks, Nat.mod_eq_of_lt hblk]
  | succ n ih =>
    intro st ds hblk
    obtain ⟨m, hm, hsent⟩ := writeOneBlock_sent_replicate st ds
    have hblk1 : (st.block + 1) % 65536 < 65536 := Nat.mod_lt _ (by omega)
    -- the one frame of the first call
    set f := dataFrame ((st.block + 1) % 65536) (st.buf.take blockSize) with hf
    have hdest1 : (writeOneBlock st ds).sent.destutter (· ≠ ·) = [f] := by
      rcases m with _ | m2
      · omega
      · rw [hsent, List.replicate_succ, List.destutter_cons']
        have hskip := destutter_skip_replicate f m2 []
        rw [List.append_nil] at hskip
        rw [hskip]
        simp
    rcases hout : (writeOneBlock st ds).out with _ | e | _
    · -- success: the loop recurses on the advanced state
      have hihblk : (writeOneBlock st ds).st.block < 65536 := by
        rw [writeOneBlock_st_block]
        exact hblk1
      obtain ⟨k2, hk2n, hk2done, hdst2, hblk2, hbuf2, hnet2⟩ :=
        ih (writeOneBlock st ds).st (writeOneBlock st ds).rest hihblk
      simp only [writeOneBlock_st_block, writeOneBlock_st_buf, writeOneBlock_st_netASCII]
        at hdst2 hblk2 hbuf2 hnet2
      -- the recursive transcript starts (if at all) with the next block frame
      have hhead : ∀ g, (sendBlocks (writeOneBlock st ds).st
          (writeOneBlock st ds).rest n).sent.head? = some g → g ≠ f := by
        intro g hg
        rcases hs : (sendBlocks (writeOneBlock st ds).st (writeOneBlock st ds).rest n).sent
          with _ | ⟨x, tail⟩
        · rw [hs] at hg
          cases hg
        · rw [hs] at hg
          have hgx : g = x := by
            rw [List.head?_cons] at hg
            exact (Option.some.inj hg).symm
          rw [hs, List.destutter_cons'] at hdst2
          obtain ⟨t, ht⟩ := destutter_keeps_head tail x
          rw [ht] at hdst2
          rcases k2 with _ | k3
          · simp at hdst2
          · rw [List.range_succ_eq_map, List.map_cons] at hdst2
            have hx : x = dataFrame (((st.block + 1) % 65536 + 0 + 1) % 65536)
                (((st.buf.drop blockSize).drop (blockSize * 0)).take blockSize) :=
              (List.cons.injEq _ _ _ _ ▸ hdst2).1
            rw [hgx, hx, hf]
            apply dataFrame_ne_of_block_ne _ _ (Nat.mod_lt _ (by omega)) hblk1
            simp only [Nat.add_zero, Nat.mod_add_mod]
            omega
      refine ⟨k2 + 1, by omega, ?_, ?_, ?_, ?_, ?_⟩
      · intro hdone
        have hq : (sendBlocks st ds (n + 1)).out =
            (sendBlocks (writeOneBlock st ds).st (writeOneBlock st ds).rest n).out := by
          simp only [sendBlocks, hout]
        rw [hq] at hdone
        rw [hk2done hdone]
      · have hres : (sendBlocks st ds (n + 1)).sent =
            (writeOneBlock st ds).sent ++
              (sendBlocks (writeOneBlock st ds).st (writeOneBlock st ds).rest n).sent := by
          simp only [sendBlocks, hout]
        rw [hres, hsent]
        rcases m with _ | m2
        · omega
        rw [List.replicate_succ, List.cons_append, List.destutter_cons',
          destutter_skip_replicate,
          destutter_cons_of_head_ne _ _ hhead, hdst2]
        rw [List.range_succ_eq_map, List.map_cons, List.map_map]
        congr 1
        apply List.map_congr_left
        intro t ht
        simp only [Function.comp_apply, Nat.succ_eq_add_one]
        have hb : ((st.block + 1) % 65536 + t + 1) % 65536 =
            (st.block + (t + 1) + 1) % 65536 := by
          have h1 : (st.block + 1) % 65536 + t + 1 = (st.block + 1) % 65536 + (t + 1) := by
            omega
          rw [h1, Nat.mod_add_mod]
          congr 1
          omega
        have hp : (st.buf.drop blockSize).drop (blockSize * t) =
            st.buf.drop (blockSize * (t + 1)) := by
          rw [List.drop_drop]
          congr 1
          ring
        rw [hb, hp]
      · have hq : (sendBlocks st ds (n + 1)).st =
            (sendBlocks (writeOneBlock st ds).st (writeOneBlock st ds).rest n).st := by
          simp only [sendBlocks, hout]
        rw [hq, hblk2, Nat.mod_add_mod]
        congr 1
        omega
      · have hq : (sendBlocks st ds (n + 1)).st =
            (sendBlocks (writeOneBlock st ds).st (writeOneBlock st ds).rest n).st := by
          simp only [sendBlocks, hout]
        rw [hq, hbuf2, List.drop_drop]
        congr 1
        ring
      · have hq : (sendBlocks st ds (n + 1)).st =
            (sendBlocks (writeOneBlock st ds).st (writeOneBlock st ds).rest n).st := by
          simp only [sendBlocks, hout]
        rw [hq, hnet2]
    · -- a failed call ends the Write loop immediately
      have hres : sendBlocks st ds (n + 1) =
          ⟨(writeOneBlock st ds).sent, (writeOneBlock st ds).rest, .failed e,
            (writeOneBlock st ds).st⟩ := by
        simp only [sendBlocks, hout]
      refine ⟨1, by omega, ?_, ?_, ?_, ?_, ?_⟩
      · intro hdone
        rw [hres] at hdone
        simp at hdone
      · rw [hres]
        show (writeOneBlock st ds).sent.destutter (· ≠ ·) = _
        rw [hdest1]
        rfl
      · rw [hres]
        show (writeOneBlock st ds).st.block = (st.block + 1) % 65536
        rw [writeOneBlock_st_block]
      · rw [hres]
        show (writeOneBlock st ds).st.buf = st.buf.drop (blockSize * 1)
        rw [writeOneBlock_st_buf, Nat.mul_one]
      · rw [hres]
        show (writeOneBlock st ds).st.netASCII = st.netASCII
        rw [writeOneBlock_st_netASCII]
    · -- the supplied datagrams ran out: the session stays blocked
      have hres : sendBlocks st ds (n + 1) =
          ⟨(writeOneBlock st ds).sent, (writeOneBlock st ds).rest, .blocked,
            (writeOneBlock st ds).st⟩ := by
        simp only [sendBlocks, hout]
      refine ⟨1, by omega, ?_, ?_, ?_, ?_, ?_⟩
      · intro hdone
        rw [hres] at hdone
        simp at hdone
      · rw [hres]
        show (writeOneBlock st ds).sent.destutter (· ≠ ·) = _
        rw [hdest1]
        rfl
      · rw [hres]
        show (writeOneBlock st ds).st.block = (st.block + 1) % 65536
        rw [writeOneBlock_st_block]
      · rw [hres]
        show (writeOneBlock st ds).st.buf = st.buf.drop (blockSize * 1)
        rw [writeOneBlock_st_buf, Nat.mul_one]
      · rw [hres]
        show (writeOneBlock st ds).st.netASCII = st.netASCII
        rw [writeOneBlock_st_netASCII]

/-- Unfolding response.Write when less than one block is buffered: only
the buffer changes. -/
lemma respWrite_eq_of_lt (st : respState) (p : List Nat) (ds : List (List Nat))
    (h : (st.buf ++ (if st.netASCII then toNetASCII p else p)).length < blockSize) :
    respWrite st p ds =
      ⟨p.length, [], ds, .done,
        { st with buf := st.buf ++ (if st.netASCII then toNetASCII p else p) }⟩ := by
  simp only [respWrite]
  rw [if_pos h]

/-- Unfolding response.Write when at least one block is buffered: the send
loop runs on the appended buffer for `bufferedLen / blockSize` rounds. -/
lemma respWrite_eq_of_ge (st : respState) (p : List Nat) (ds : List (List Nat))
    (h : blockSize ≤ (st.buf ++ (if st.netASCII then toNetASCII p else p)).length) :
    respWrite st p ds =
      ⟨p.length,
       (sendBlocks { st with buf := st.buf ++ (if st.netASCII then toNetASCII p else p) } ds
         ((st.buf ++ (if st.netASCII then toNetASCII p else p)).length / blockSize)).sent,
       (sendBlocks { st with buf := st.buf ++ (if st.netASCII then toNetASCII p else p) } ds
         ((st.buf ++ (if st.netASCII then toNetASCII p else p)).length / blockSize)).rest,
       (sendBlocks { st with buf := st.buf ++ (if st.netASCII then toNetASCII p else p) } ds
         ((st.buf ++ (if st.netASCII then toNetASCII p else p)).length / blockSize)).out,
       (sendBlocks { st with buf := st.buf ++ (if st.netASCII then toNetASCII p else p) } ds
         ((st.buf ++ (if st.netASCII then toNetASCII p else p)).length / blockSize)).st⟩ := by
  simp only [respWrite]
  rw [if_neg (Nat.not_lt.mpr h)]

/-- C6: response.Write always reports the pre-transcoding input length; a
call that leaves fewer than blockSize bytes buffered does no network I/O
and succeeds; otherwise it drives the send loop for exactly
bufferedLen / blockSize full blocks, in buffer order with consecutive
block numbers (k = all of them when every block is acknowledged; an
unrecovered error or an unresponsive peer stops the call early after k
blocks, with no further blocks attempted), and every one of those chunks
is a full blockSize-byte payload. -/
theorem respWrite_spec (st : respState) (p : List Nat) (ds : List (List Nat))
    (hblk : st.block < 65536) :
    (respWrite st p ds).n = p.length ∧
    ((st.buf ++ (if st.netASCII then toNetASCII p else p)).length < blockSize →
      respWrite st p ds =
        ⟨p.length, [], ds, .done,
          { st with buf := st.buf ++ (if st.netASCII then toNetASCII p else p) }⟩) ∧
    (blockSize ≤ (st.buf ++ (if st.netASCII then toNetASCII p else p)).length →
      ∃ k, k ≤ (st.buf ++ (if st.netASCII then toNetASCII p else p)).length / blockSize ∧
        ((respWrite st p ds).out = .done →
          k = (st.buf ++ (if st.netASCII then toNetASCII p else p)).length / blockSize) ∧
        (respWrite st p ds).sent.destutter (· ≠ ·) =
          (List.range k).map (fun t =>
            dataFrame ((st.block + t + 1) % 65536)
              (((st.buf ++ (if st.netASCII then toNetASCII p else p)).drop
                  (blockSize * t)).take blockSize)) ∧
        (respWrite st p ds).st.block = (st.block + k) % 65536 ∧
        (respWrite st p ds).st.buf =
          (st.buf ++ (if st.netASCII then toNetASCII p else p)).drop (blockSize * k)) ∧
    (∀ t, t < (st.buf ++ (if st.netASCII then toNetASCII p else p)).length / blockSize →
      (((st.buf ++ (if st.netASCII then toNetASCII p else p)).drop
          (blockSize * t)).take blockSize).length = blockSize) := by
  refine ⟨?_, respWrite_eq_of_lt st p ds, ?_, ?_⟩
  · simp only [respWrite]
    split <;> split <;> rfl
  · intro hge
    have hres := respWrite_eq_of_ge st p ds hge
    have hblk1 : ({ st with
        buf := st.buf ++ (if st.netASCII then toNetASCII p else p) } : respState).block
        < 65536 := hblk
    obtain ⟨k, hk, hkdone, hdst, hblkk, hbufk, -⟩ :=
      sendBlocks_spec
        ((st.buf ++ (if st.netASCII then toNetASCII p else p)).length / blockSize)
        { st with buf := st.buf ++ (if st.netASCII then toNetASCII p else p) } ds hblk1
    refine ⟨k, hk, ?_, ?_, ?_, ?_⟩
    · intro h
      rw [hres] at h
      exact hkdone h
    · rw [hres]
      exact hdst
    · rw [hres]
      exact hblkk
    · rw [hres]
      exact hbufk
  · intro t ht
    simp only [List.length_take, List.length_drop]
    simp only [blockSize] at ht ⊢
    omega

set_option maxRecDepth 40000 in
/-- Witness for C6: a sub-block write only buffers, and a one-block write
sends exactly block 1. -/
theorem respWrite_spec_witness :
    respWrite ⟨[], 0, false⟩ [1, 2, 3] [] = ⟨3, [], [], .done, ⟨[1, 2, 3], 0, false⟩⟩ ∧
    (respWrite ⟨[], 9, false⟩ (List.replicate 512 7) [[0, 4, 0, 10]]).n = 512 :=
  ⟨(respWrite_spec ⟨[], 0, false⟩ [1, 2, 3] [] (by decide)).2.1 (by decide),
   (respWrite_spec ⟨[], 9, false⟩ (List.replicate 512 7) [[0, 4, 0, 10]] (by decide)).1⟩

set_option maxRecDepth 100000 in
/-- C8: the block counter starts at the Go zero value 0, writeOneBlock
increments it exactly once (mod 65536) before framing, every frame written
during that one call carries the incremented number (so a number is reused
only for retransmissions of the same block), and a 1024-byte octet
transfer followed by Flush issues exactly blocks 1, 2 and a terminal
block 3 with an empty payload. -/
theorem block_numbering_spec :
    (∀ mode : List Nat, (newResponse mode).block = 0) ∧
    (∀ (st : respState) (ds : List (List Nat)),
      (writeOneBlock st ds).st.block = (st.block + 1) % 65536) ∧
    (∀ (st : respState) (ds : List (List Nat)) (f : List Nat),
      f ∈ (writeOneBlock st ds).sent →
        f = dataFrame ((st.block + 1) % 65536) (st.buf.take blockSize)) ∧
    (respWrite (newResponse ModeOctet) (List.replicate 1024 97)
        [[0, 4, 0, 1], [0, 4, 0, 2]]).sent =
      [dataFrame 1 (List.replicate 512 97), dataFrame 2 (List.replicate 512 97)] ∧
    (respWrite (newResponse ModeOctet) (List.replicate 1024 97)
        [[0, 4, 0, 1], [0, 4, 0, 2]]).out = .done ∧
    (respFlush (respWrite (newResponse ModeOctet) (List.replicate 1024 97)
        [[0, 4, 0, 1], [0, 4, 0, 2]]).st [[0, 4, 0, 3]]).sent = [dataFrame 3 []] ∧
    (respFlush (respWrite (newResponse ModeOctet) (List.replicate 1024 97)
        [[0, 4, 0, 1], [0, 4, 0, 2]]).st [[0, 4, 0, 3]]).out = .done := by
  refine ⟨fun mode => rfl, writeOneBlock_st_block, ?_, ?_, ?_, ?_, ?_⟩
  · intro st ds f hf
    rw [writeOneBlock] at hf
    exact wobLoop_sent_eq _ _ _ ds f hf
  · rfl
  · rfl
  · rfl
  · rfl

/-- Witness for C8: the one frame of a concrete writeOneBlock call carries
the incremented block number 8 and the buffered bytes. -/
theorem block_numbering_spec_witness :
    [0, 3, 0, 8, 5, 6] = dataFrame ((7 + 1) % 65536) (([5, 6] : List Nat).take blockSize) :=
  block_numbering_spec.2.2.1 ⟨[5, 6], 7, false⟩ [[0, 4, 0, 8]] [0, 3, 0, 8, 5, 6] (by decide)

end TFTP
